import Mathlib

/-!
Verification of the rusthello Othello engine (samonzeweb/rusthello).

Shallow embedding of `src/rusthello/board.rs`, `src/rusthello/game.rs`
and `src/rusthello/virtual_player.rs`.  A board is embedded as a total
function from coordinates to cell contents (the Rust `[[Option<Player>; 8]; 8]`
array, read outside [0,7] as irrelevant); fallible Rust functions returning
`Result<T, String>` are embedded as `Except String T`.

Pieces of the repository referenced by the sources but not present under
`src/` (the `GridIterator` position enumerator, `Board::count_pieces`,
`Board::iter`, the `Board::can_player_move` method used by the search, and
the `GameStatus::can_player_move` flag accessor used by the evaluator) are
modelled from the specification, and carry a doc comment saying so.
-/

namespace Rusthello

/-- Embeds enum `Player` from board.rs: the two Othello players. -/
inductive Player where
  | black
  | white
deriving DecidableEq, Repr

/-- Embeds `Player::opponent` from board.rs: returns the opponent of the player. -/
def Player.opponent (p : Player) : Player :=
  if p = Player.black then Player.white else Player.black

/-- Embeds `Display for Player` (used only inside error strings of game.rs). -/
def Player.show (p : Player) : String :=
  match p with
  | Player.black => "Black"
  | Player.white => "White"

/-- Embeds struct `Board` from board.rs: the 8x8 cell array, as a total
function on coordinates; only inputs in [0,7] are ever read by the engine. -/
abbrev Board := Nat → Nat → Option Player

/-- Embeds `Board::new` from board.rs: creates an empty board. -/
def Board.new : Board := fun _ _ => none

/-- Embeds `Board::new_start` from board.rs: empty board with the four
starting pieces written by its `set_piece` calls:
(3,3) and (4,4) White, (3,4) and (4,3) Black. -/
def Board.new_start : Board := fun x y =>
  if (x = 3 ∧ y = 3) ∨ (x = 4 ∧ y = 4) then some Player.white
  else if (x = 3 ∧ y = 4) ∨ (x = 4 ∧ y = 3) then some Player.black
  else none

/-- Embeds `Board::check_coordinates` from board.rs. -/
def Board.check_coordinates (x y : Nat) : Except String Unit :=
  if x > 7 ∨ y > 7 then
    Except.error ("the given coordinates are out of range : (" ++ toString x ++ ", " ++ toString y ++ ")")
  else Except.ok ()

/-- Embeds `Board::set_piece` from board.rs (the `&mut self` write is
state passing: the updated board is returned). -/
def Board.set_piece (b : Board) (x y : Nat) (piece : Option Player) : Except String Board :=
  match Board.check_coordinates x y with
  | Except.error e => Except.error e
  | Except.ok _ => Except.ok (fun i j => if i = x ∧ j = y then piece else b i j)

/-- Embeds `Board::get_piece` from board.rs. -/
def Board.get_piece (b : Board) (x y : Nat) : Except String (Option Player) :=
  match Board.check_coordinates x y with
  | Except.error e => Except.error e
  | Except.ok _ => Except.ok (b x y)

/-- Embeds struct `CellsNavigation` from board.rs: a cursor walking the
board from a start position along a direction. -/
structure CellsNavigation where
  current_position : Int × Int
  direction : Int × Int
deriving DecidableEq, Repr

/-- Embeds `CellsNavigation::new` from board.rs. -/
def CellsNavigation.new (start : Nat × Nat) (direction : Int × Int) : Except String CellsNavigation :=
  match Board.check_coordinates start.1 start.2 with
  | Except.error e => Except.error e
  | Except.ok _ =>
    if direction.1 < -1 ∨ direction.1 > 1 ∨ direction.2 < -1 ∨ direction.2 > 1 then
      Except.error "the given direction is out of range"
    else
      Except.ok { current_position := ((start.1 : Int), (start.2 : Int)), direction := direction }

/-- Embeds `CellsNavigation::reverse` from board.rs. -/
def CellsNavigation.reverse (nav : CellsNavigation) : CellsNavigation :=
  { nav with direction := (-nav.direction.1, -nav.direction.2) }

/-- Embeds `Iterator::next for CellsNavigation` from board.rs: advance one
step; yield the new position while it stays on the board. -/
def CellsNavigation.next (nav : CellsNavigation) : Option ((Nat × Nat) × CellsNavigation) :=
  let x := nav.current_position.1 + nav.direction.1
  let y := nav.current_position.2 + nav.direction.2
  if x < 0 ∨ x > 7 ∨ y < 0 ∨ y > 7 then none
  else some ((x.toNat, y.toNat), { nav with current_position := (x, y) })

/-- Embeds the constant `ALL_DIRECTIONS` from `Board::play`. -/
def ALL_DIRECTIONS : List (Int × Int) :=
  [(0, -1), (1, -1), (1, 0), (1, 1), (0, 1), (-1, 1), (-1, 0), (-1, -1)]

/-- Embeds the forward `for position in &mut navigator` loop of `Board::play`:
walk outward reading the ORIGINAL board; stop on an empty cell or the edge
(no capture), or on one of the mover's own pieces (capture iff at least one
opponent piece was crossed).  Returns the `can_capture` flag and the
navigator as left by the loop (its cursor sits on the cell that ended the
walk).  The walk moves one cell per step, so 8 units of fuel are enough to
cross the board; `Board::play` always supplies 8. -/
def scanDirection (b : Board) (other_player : Player) (nav : CellsNavigation)
    (found_other_on_path : Bool) (fuel : Nat) : Bool × CellsNavigation :=
  match fuel with
  | 0 => (false, nav)
  | fuel + 1 =>
    match CellsNavigation.next nav with
    | none => (false, nav)
    | some (position, nav') =>
      match b position.1 position.2 with
      | none => (false, nav')
      | some p =>
        if p = other_player then scanDirection b other_player nav' true fuel
        else (found_other_on_path, nav')

/-- Embeds the backward capture loop of `Board::play`: after `reverse()`,
walk from the terminating own piece back toward the move position, turning
every cell strictly between them into the mover's color; stop at the move
position itself.  As for the forward walk, fuel 8 crosses the board. -/
def captureBackward (new_board : Board) (player : Player) (nav : CellsNavigation)
    (move_position : Nat × Nat) (fuel : Nat) : Board :=
  match fuel with
  | 0 => new_board
  | fuel + 1 =>
    match CellsNavigation.next nav with
    | none => new_board
    | some (position, nav') =>
      if position = move_position then new_board
      else
        captureBackward
          (fun i j => if i = position.1 ∧ j = position.2 then some player else new_board i j)
          player nav' move_position fuel

/-- Embeds the `for (_, direction) in ALL_DIRECTIONS.iter().enumerate()`
loop of `Board::play`: explore the 8 directions, accumulating flips into
new_board (first component, seeded with the clone of the original board)
and whether at least one direction captured (the valid_move flag).  The
`CellsNavigation::new((x, y), direction).unwrap()` of the source cannot
fail here (`Board::play` just checked the coordinates and every direction
of `ALL_DIRECTIONS` is in range), so the navigator is built directly. -/
def playScan (b : Board) (player : Player) (x y : Nat) : Board × Bool :=
  let other_player := Player.opponent player
  ALL_DIRECTIONS.foldl
    (fun (acc : Board × Bool) direction =>
      let navigator : CellsNavigation :=
        { current_position := ((x : Int), (y : Int)), direction := direction }
      let forward := scanDirection b other_player navigator false 8
      if forward.1 then
        (captureBackward acc.1 player (CellsNavigation.reverse forward.2) (x, y) 8, true)
      else acc)
    (b, false)

/-- Embeds `Board::play` from board.rs.  Play at the given position for the
given player; on a valid move the new board is returned, else `none`. -/
def Board.play (b : Board) (player : Player) (x y : Nat) : Except String (Option Board) :=
  match Board.check_coordinates x y with
  | Except.error e => Except.error e
  | Except.ok _ =>
    -- Only moves targeting empty cells are valid.
    if b x y ≠ none then Except.ok none
    else if (playScan b player x y).2 then
      Except.ok (some (fun i j => if i = x ∧ j = y then some player else (playScan b player x y).1 i j))
    else Except.ok none

/-- Modelled from the spec: `GridIterator` is not among the given sources;
§4.1 fixes the enumeration of all 64 positions in deterministic row-major
order, x outer and y inner. -/
def gridPositions : List (Nat × Nat) :=
  (List.range 64).map (fun i => (i / 8, i % 8))

/-- Modelled from the spec: `Board::count_pieces` is not among the given
sources; §4.2 counts the pieces of each color by scanning all 64 cells.
Returns (black count, white count) as `Game::count_pieces` exposes them. -/
def Board.count_pieces (b : Board) : Nat × Nat :=
  (gridPositions.countP (fun pos => decide (b pos.1 pos.2 = some Player.black)),
   gridPositions.countP (fun pos => decide (b pos.1 pos.2 = some Player.white)))

/-- Modelled from the spec: `Board::iter` is not among the given sources;
§4.1 has it produce the 64 triples (x, y, cell) in the fixed order of
`GridIterator`. -/
def Board.iter (b : Board) : List (Nat × Nat × Option Player) :=
  gridPositions.map (fun pos => (pos.1, pos.2, b pos.1 pos.2))

/-- Embeds the probe `board.play(player, x, y).unwrap().is_some()` of
`GameStatus::can_player_move` from game.rs.  The `.unwrap()` of the source
can only panic on an out-of-range error, which grid coordinates never
produce (claim C10); an error is read as `false` here. -/
def Board.playIsSome (b : Board) (player : Player) (x y : Nat) : Bool :=
  match Board.play b player x y with
  | Except.ok r => r.isSome
  | Except.error _ => false

/-- Embeds the loop of `GameStatus::can_player_move` from game.rs (also the
`Board::can_player_move` method the search calls, modelled from spec §4.2):
a player can move iff probing every cell in grid order finds one where
`Board::play` returns `Ok(Some(_))`. -/
def Board.can_player_move (b : Board) (player : Player) : Bool :=
  gridPositions.any (fun pos => Board.playIsSome b player pos.1 pos.2)

/-- Embeds struct `GameStatus` from game.rs. -/
structure GameStatus where
  black_can_move : Bool
  white_can_move : Bool
  black_pieces : Nat
  white_pieces : Nat
deriving DecidableEq, Repr

/-- Embeds `GameStatus::evaluate_board` from game.rs: count the pieces; if
the board is not full, probe mobility of both players, else leave both
mobility flags false (short-circuit). -/
def GameStatus.evaluate_board (board : Board) : GameStatus :=
  let counts := Board.count_pieces board
  if counts.1 + counts.2 ≠ 64 then
    { black_can_move := Board.can_player_move board Player.black
      white_can_move := Board.can_player_move board Player.white
      black_pieces := counts.1
      white_pieces := counts.2 }
  else
    { black_can_move := false
      white_can_move := false
      black_pieces := counts.1
      white_pieces := counts.2 }

/-- Embeds `GameStatus::game_over` from game.rs. -/
def GameStatus.game_over (s : GameStatus) : Bool :=
  !s.black_can_move && !s.white_can_move

/-- Embeds `GameStatus::winner` from game.rs. -/
def GameStatus.winner (s : GameStatus) : Option Player :=
  if !(GameStatus.game_over s) || s.black_pieces == s.white_pieces then none
  else if s.black_pieces > s.white_pieces then some Player.black
  else some Player.white

/-- Modelled from the spec: the `GameStatus::can_player_move(player)`
accessor the evaluator calls on a status value is not among the given
sources; per the data model of §3 a `GameStatus` carries exactly the two
mobility booleans, so the accessor reads the flag of the given player. -/
def GameStatus.can_player_move (s : GameStatus) (player : Player) : Bool :=
  match player with
  | Player.black => s.black_can_move
  | Player.white => s.white_can_move

deriving instance DecidableEq for Except

/-- Embeds struct `Game` from game.rs. -/
structure Game where
  board : Board
  player : Option Player
  status : GameStatus

/-- Embeds `Game::new` from game.rs: standard start board, Black to move. -/
def Game.new : Game :=
  { board := Board.new_start
    player := some Player.black
    status := GameStatus.evaluate_board Board.new_start }

/-- Embeds `Game::play` from game.rs.  The `&mut self` method is state
passing: the pair is (returned `Result`, game after the call); every early
`return Err` leaves the game unchanged, exactly as the source mutates
nothing before its success branch. -/
def Game.play (g : Game) (player : Player) (x y : Nat) : Except String Unit × Game :=
  match g.player with
  | none => (Except.error "None of the players can move, the game is over.", g)
  | some p =>
    if p ≠ player then
      (Except.error ("It's the turn of " ++ Player.show p ++ ", not " ++ Player.show player ++ "."), g)
    else
      match Board.play g.board player x y with
      | Except.error e => (Except.error e, g)
      | Except.ok (some new_board) =>
        (Except.ok (),
         { g with board := new_board, status := GameStatus.evaluate_board new_board })
      | Except.ok none => (Except.error "The move is invalid.", g)

/-- Embeds struct `BestMove` from virtual_player.rs. -/
structure BestMove where
  x : Nat
  y : Nat
  evaluation : Int
deriving DecidableEq, Repr

/-- Embeds struct `Minimax` from virtual_player.rs. -/
structure Minimax where
  depth : Nat
deriving DecidableEq, Repr

/-- Embeds `Evaluator::SCORE_MAX` (i32::MAX) from virtual_player.rs. -/
def Evaluator.SCORE_MAX : Int := 2147483647

/-- Embeds `Evaluator::SCORE_DRAW` from virtual_player.rs. -/
def Evaluator.SCORE_DRAW : Int := 0

/-- Embeds `Evaluator::SCORE_OPPONENT_BLOCKED` from virtual_player.rs. -/
def Evaluator.SCORE_OPPONENT_BLOCKED : Int := 4

/-- Embeds `Evaluator::SCORE_INSIDE` from virtual_player.rs. -/
def Evaluator.SCORE_INSIDE : Int := 1

/-- Embeds `Evaluator::SCORE_BORDER` from virtual_player.rs. -/
def Evaluator.SCORE_BORDER : Int := 4

/-- Embeds `Evaluator::SCORE_CORNER` from virtual_player.rs. -/
def Evaluator.SCORE_CORNER : Int := 8

/-- Embeds `Evaluator::sign_for_player` from virtual_player.rs.  All i32
arithmetic the evaluator performs stays far inside the i32 range
(positional sums are bounded by 64 * 8 + 4 and SCORE_MAX is only negated),
so plain `Int` models it exactly. -/
def Evaluator.sign_for_player (player : Player) (count : Int) : Int :=
  match player with
  | Player.black => count
  | Player.white => -count

/-- Embeds `Evaluator::corner` from virtual_player.rs. -/
def Evaluator.corner (x y : Nat) : Bool :=
  (x == 0 || x == 7) && (y == 0 || y == 7)

/-- Embeds `Evaluator::border` from virtual_player.rs. -/
def Evaluator.border (x y : Nat) : Bool :=
  x == 0 || x == 7 || y == 0 || y == 7

/-- Embeds the body of the `for (x, y, piece) in board.iter()` loop of
`Evaluator::evaluate`: the three accumulators (corner, border, other) as a
triple. -/
def Evaluator.evalFold (acc : Int × Int × Int) (cell : Nat × Nat × Option Player) :
    Int × Int × Int :=
  match cell.2.2 with
  | none => acc
  | some player =>
    if Evaluator.corner cell.1 cell.2.1 then
      (acc.1 + Evaluator.sign_for_player player Evaluator.SCORE_CORNER, acc.2.1, acc.2.2)
    else if Evaluator.border cell.1 cell.2.1 then
      (acc.1, acc.2.1 + Evaluator.sign_for_player player Evaluator.SCORE_BORDER, acc.2.2)
    else
      (acc.1, acc.2.1, acc.2.2 + Evaluator.sign_for_player player Evaluator.SCORE_INSIDE)

/-- Embeds `Evaluator::evaluate` from virtual_player.rs. -/
def Evaluator.evaluate (board : Board) (last_player : Player) : Int :=
  let status := GameStatus.evaluate_board board
  if GameStatus.game_over status then
    match GameStatus.winner status with
    | some winner => Evaluator.sign_for_player winner Evaluator.SCORE_MAX
    | none => Evaluator.SCORE_DRAW
  else
    let acc := (Board.iter board).foldl Evaluator.evalFold ((0 : Int), (0 : Int), (0 : Int))
    let evaluation := acc.1 + acc.2.1 + acc.2.2
    if !(GameStatus.can_player_move status (Player.opponent last_player)) then
      evaluation + Evaluator.sign_for_player last_player Evaluator.SCORE_OPPONENT_BLOCKED
    else
      evaluation

/-- Embeds `Minimax::best_move_for_player` from virtual_player.rs: keep
move_a only when its signed evaluation is strictly greater, else take
move_b (so equal evaluations take move_b, the newer candidate). -/
def Minimax.best_move_for_player (current_player : Player)
    (move_a move_b : Option BestMove) : Option BestMove :=
  match move_a, move_b with
  | none, _ => move_b
  | some a, none => some a
  | some a, some b =>
    let eval_a := Evaluator.sign_for_player current_player a.evaluation
    let eval_b := Evaluator.sign_for_player current_player b.evaluation
    if eval_a > eval_b then some a else some b

/-- Embeds `Minimax::inner_compute_move` from virtual_player.rs: the fold
over all grid positions; each valid move is evaluated at maximal depth or
blocked positions, and otherwise explored recursively with the next player
(opponent if it can move, else the current player).  The source recursion
has no fuel; it terminates because every recursive call plays a move into
an empty cell, so the recursion depth is bounded by the 64 cells of the
board.  Fuel makes that bound explicit: `Minimax::compute_move` supplies 64,
which the recursion can never exhaust.  The `.expect(..)` on `play` cannot
fail on grid coordinates, and is read as skipping the position; the
`.unwrap()` on the recursive result is `Option.getD` with an arbitrary
default, proved unreachable in claim C10. -/
def Minimax.inner_compute_move (m : Minimax) (board : Board) (current_player : Player)
    (depth : Nat) (fuel : Nat) : Option BestMove :=
  match fuel with
  | 0 => none
  | fuel + 1 =>
    gridPositions.foldl
      (fun best_move pos =>
        match Board.play board current_player pos.1 pos.2 with
        | Except.error _ => best_move
        | Except.ok none => best_move
        | Except.ok (some board_after_move) =>
          if depth = m.depth then
            -- max depth, just evaluate and return
            let evaluation := Evaluator.evaluate board_after_move current_player
            Minimax.best_move_for_player current_player best_move
              (some { x := pos.1, y := pos.2, evaluation := evaluation })
          else
            -- determine the next player, and check if the game is blocked
            let next_player : Option Player :=
              if Board.can_player_move board_after_move (Player.opponent current_player) then
                some (Player.opponent current_player)
              else if Board.can_player_move board_after_move current_player then
                some current_player
              else none
            match next_player with
            | none =>
              -- the game is blocked
              let evaluation := Evaluator.evaluate board_after_move current_player
              Minimax.best_move_for_player current_player best_move
                (some { x := pos.1, y := pos.2, evaluation := evaluation })
            | some next_player =>
              let inner_best_move :=
                (Minimax.inner_compute_move m board_after_move next_player (depth + 1) fuel).getD
                  { x := 0, y := 0, evaluation := 0 }
              Minimax.best_move_for_player current_player best_move
                (some { x := pos.1, y := pos.2, evaluation := inner_best_move.evaluation }))
      none

/-- Embeds `Minimax::compute_move` (the `VirtualPlayer` impl) from
virtual_player.rs; 64 units of fuel bound the recursion depth by the cell
count of the board (see `Minimax.inner_compute_move`). -/
def Minimax.compute_move (m : Minimax) (board : Board) (me : Player) : Option (Nat × Nat) :=
  match Minimax.inner_compute_move m board me 1 64 with
  | some move_found => some (move_found.x, move_found.y)
  | none => none

/-! Spec-side definitions (worded after the specification, for the
refinement claims) and the concrete scenario boards of the testable
properties. -/

/-- Reads a cell of the board carried by a successful `Board::play` result:
`some (cell contents)` when the result is `Ok(Some(board))`, `none` when it
is an error or `Ok(None)`. -/
def resultCell (r : Except String (Option Board)) (x y : Nat) : Option (Option Player) :=
  match r with
  | Except.ok (some b) => some (b x y)
  | _ => none

/-- Follows the words of the spec (§4.2, glossary "Mobility"): the player
has at least one legal move, i.e. some in-range cell on which `Board::play`
answers `Ok(Some(_))`. -/
def hasLegalMove (b : Board) (player : Player) : Prop :=
  ∃ x, x < 8 ∧ ∃ y, y < 8 ∧ Board.playIsSome b player x y = true

instance (b : Board) (player : Player) : Decidable (hasLegalMove b player) :=
  decidable_of_iff
    ((List.range 8).any (fun x => (List.range 8).any (fun y => Board.playIsSome b player x y)) = true)
    (by simp only [List.any_eq_true, List.mem_range, hasLegalMove])

/-- Follows the words of the spec (§4.4) and of claim C6: the positional
weight of one cell, 8 for the four extreme corners, 4 for any other border
cell, 1 otherwise, signed by the owner (Black positive, White negative);
an empty cell contributes nothing. -/
def positionalScore (b : Board) (pos : Nat × Nat) : Int :=
  match b pos.1 pos.2 with
  | none => 0
  | some owner =>
    (if (pos.1 = 0 ∨ pos.1 = 7) ∧ (pos.2 = 0 ∨ pos.2 = 7) then 8
     else if pos.1 = 0 ∨ pos.1 = 7 ∨ pos.2 = 0 ∨ pos.2 = 7 then 4
     else 1) *
    (match owner with
     | Player.black => 1
     | Player.white => -1)

/-- Contribution of a single cell to the positional part of
`Evaluator.evaluate`, phrased with the corner/border tests of the source:
what one pass of the evaluation loop adds to its three accumulators. -/
def cellScore (cell : Nat × Nat × Option Player) : Int :=
  match cell.2.2 with
  | none => 0
  | some player =>
    if Evaluator.corner cell.1 cell.2.1 then
      Evaluator.sign_for_player player Evaluator.SCORE_CORNER
    else if Evaluator.border cell.1 cell.2.1 then
      Evaluator.sign_for_player player Evaluator.SCORE_BORDER
    else
      Evaluator.sign_for_player player Evaluator.SCORE_INSIDE

/-- Follows the words of the spec (§4.4) and of claim C6, to be compared
with `Evaluator.evaluate` as embedded from the source: a game-over board
(no player has a legal move) scores the maximum representable signed value
for the winner, positive for Black and negative for White, and 0 on a
draw; any other board scores the sum of the positional weights of its
occupied cells plus a bonus of 4 signed for `last_player` when the
opponent of `last_player` has no legal move. -/
def Evaluator.evaluateSpec (board : Board) (last_player : Player) : Int :=
  if ¬ hasLegalMove board Player.black ∧ ¬ hasLegalMove board Player.white then
    if (Board.count_pieces board).1 > (Board.count_pieces board).2 then Evaluator.SCORE_MAX
    else if (Board.count_pieces board).2 > (Board.count_pieces board).1 then -Evaluator.SCORE_MAX
    else 0
  else
    (gridPositions.map (fun pos => positionalScore board pos)).sum +
      (if ¬ hasLegalMove board (Player.opponent last_player) then
        Evaluator.sign_for_player last_player 4
      else 0)

/-- Board of the capture scenario of claim C1 (test
`play_execute_move_capuring_pieces_in_all_directions` of board.rs): in the
5x5 sub-square with x, y in [0,4], Black on every edge cell, White on every
interior cell except the empty center (2,2); all other cells empty. -/
def ringBoard : Board := fun x y =>
  if x ≤ 4 ∧ y ≤ 4 then
    if x = 0 ∨ x = 4 ∨ y = 0 ∨ y = 4 then some Player.black
    else if ¬(x = 2 ∧ y = 2) then some Player.white
    else none
  else none

/-- Board of the fixed-depth search scenario of claim C5 (test
`minimax_find_the_best_move` of virtual_player.rs): White at (2,2) and
(2,3), Black at (3,2), (3,3) and (4,3). -/
def minimaxTestBoard : Board := fun x y =>
  if (x = 2 ∧ y = 2) ∨ (x = 2 ∧ y = 3) then some Player.white
  else if (x = 3 ∧ y = 2) ∨ (x = 3 ∧ y = 3) ∨ (x = 4 ∧ y = 3) then some Player.black
  else none

/-- Dead-position board of the game-over scenarios (test
`game_over_if_none_of_the_players_can_move` of game.rs): a lone Black piece
at (0,0) and a lone White piece at (7,7); neither player has any legal
move. -/
def deadBoard : Board := fun x y =>
  if x = 0 ∧ y = 0 then some Player.black
  else if x = 7 ∧ y = 7 then some Player.white
  else none

/-- Game state over `deadBoard` as the workflow of game.rs produces it: the
current-player field still holds `Some(Black)` (it is assigned only by
`Game::new` and never reassigned), and the status is recomputed from the
board. -/
def deadGame : Game :=
  { board := deadBoard
    player := some Player.black
    status := GameStatus.evaluate_board deadBoard }

/-- Board with a Black piece on every one of the 64 cells (test
`game_over_if_all_cells_are_occupied` of game.rs). -/
def allBlackBoard : Board := fun x y =>
  if x ≤ 7 ∧ y ≤ 7 then some Player.black else none

/-! General lemmas about the embedded engine, shared by the claims. -/

/-- The grid enumeration visits exactly the in-range positions. -/
theorem mem_gridPositions (pos : Nat × Nat) : pos ∈ gridPositions ↔ pos.1 < 8 ∧ pos.2 < 8 := by
  constructor
  · intro h
    simp only [gridPositions, List.mem_map, List.mem_range] at h
    obtain ⟨i, hi, he⟩ := h
    rw [← he]
    exact ⟨by omega, by omega⟩
  · rintro ⟨h1, h2⟩
    simp only [gridPositions, List.mem_map, List.mem_range]
    refine ⟨8 * pos.1 + pos.2, by omega, ?_⟩
    have e1 : (8 * pos.1 + pos.2) / 8 = pos.1 := by omega
    have e2 : (8 * pos.1 + pos.2) % 8 = pos.2 := by omega
    rw [e1, e2]

/-- Board::play answers `Ok` (never an error) on every in-range target. -/
theorem play_isOk (b : Board) (p : Player) (x y : Nat) (hx : x ≤ 7) (hy : y ≤ 7) :
    ∃ r, Board.play b p x y = Except.ok r := by
  have h : ¬(x > 7 ∨ y > 7) := by omega
  simp only [Board.play, Board.check_coordinates, if_neg h]
  by_cases hc : b x y ≠ none
  · rw [if_pos hc]; exact ⟨none, rfl⟩
  · rw [if_neg hc]
    split
    · exact ⟨_, rfl⟩
    · exact ⟨none, rfl⟩

/-- Board::play answers `Ok(None)` on every in-range occupied target. -/
theorem play_occupied (b : Board) (p : Player) (x y : Nat) (hx : x ≤ 7) (hy : y ≤ 7)
    (hocc : b x y ≠ none) : Board.play b p x y = Except.ok none := by
  have h : ¬(x > 7 ∨ y > 7) := by omega
  simp only [Board.play, Board.check_coordinates, if_neg h, if_pos hocc]

/-- A successful probe means the target was empty and the returned board
has the mover's piece on the target cell. -/
theorem playIsSome_target (b : Board) (p : Player) (x y : Nat)
    (h : Board.playIsSome b p x y = true) :
    b x y = none ∧ resultCell (Board.play b p x y) x y = some (some p) := by
  by_cases hxy : x > 7 ∨ y > 7
  · exfalso
    rw [Board.playIsSome] at h
    rw [Board.play, Board.check_coordinates, if_pos hxy] at h
    simp at h
  have hempty : b x y = none := by
    by_contra hocc
    rw [Board.playIsSome, play_occupied b p x y (by omega) (by omega) hocc] at h
    simp at h
  refine ⟨hempty, ?_⟩
  have hne : ¬ (b x y ≠ none) := fun hk => hk hempty
  rcases hplay : Board.play b p x y with e | r
  · exfalso
    rw [Board.playIsSome, hplay] at h
    simp at h
  cases r with
  | none =>
    exfalso
    rw [Board.playIsSome, hplay] at h
    simp at h
  | some b2 =>
    have hcell : b2 x y = some p := by
      have hp2 := hplay
      simp only [Board.play, Board.check_coordinates, if_neg hxy, if_neg hne] at hp2
      by_cases hs : (playScan b p x y).2 = true
      · rw [if_pos hs] at hp2
        have hfun : (fun i j => if i = x ∧ j = y then some p else (playScan b p x y).1 i j) = b2 := by
          have h1 := Except.ok.inj hp2
          exact Option.some.inj h1
        rw [← hfun]
        simp
      · rw [if_neg hs] at hp2
        exact absurd (Except.ok.inj hp2) (by simp)
    simp only [resultCell, hcell]

/-- Pieces of two exclusive kinds fill at most the whole list. -/
theorem countP_disjoint_le {α : Type} (p q : α → Bool) (l : List α)
    (hdisj : ∀ a, ¬(p a = true ∧ q a = true)) :
    l.countP p + l.countP q ≤ l.length := by
  induction l with
  | nil => simp
  | cons a l ih =>
    rw [List.countP_cons, List.countP_cons, List.length_cons]
    cases hp : p a <;> cases hq : q a
    · simp
      omega
    · simp
      omega
    · simp
      omega
    · exact absurd ⟨hp, hq⟩ (hdisj a)

/-- When two exclusive kinds of pieces fill the whole list, every element
is of one of the kinds. -/
theorem countP_full_all {α : Type} (p q : α → Bool) (l : List α)
    (hdisj : ∀ a, ¬(p a = true ∧ q a = true))
    (hsum : l.countP p + l.countP q = l.length) :
    ∀ a ∈ l, p a = true ∨ q a = true := by
  induction l with
  | nil => simp
  | cons a l ih =>
    rw [List.countP_cons, List.countP_cons, List.length_cons] at hsum
    have hle := countP_disjoint_le p q l hdisj
    intro b hb
    rcases List.mem_cons.mp hb with hb | hb
    · subst hb
      cases hp : p b
      · cases hq : q b
        · exfalso
          simp [hp, hq] at hsum
          omega
        · exact Or.inr rfl
      · exact Or.inl rfl
    · refine ih ?_ b hb
      cases hp : p a <;> cases hq : q a
      · simp [hp, hq] at hsum
        omega
      · simp [hp, hq] at hsum
        omega
      · simp [hp, hq] at hsum
        omega
      · exact absurd ⟨hp, hq⟩ (hdisj a)

/-- The mobility probe is exact: it answers true iff the player has a
legal move. -/
theorem can_true_iff (b : Board) (p : Player) :
    Board.can_player_move b p = true ↔ hasLegalMove b p := by
  rw [Board.can_player_move, List.any_eq_true]
  constructor
  · rintro ⟨pos, hmem, hval⟩
    have hb := (mem_gridPositions pos).mp hmem
    exact ⟨pos.1, hb.1, pos.2, hb.2, hval⟩
  · rintro ⟨x, hx, y, hy, hval⟩
    exact ⟨(x, y), (mem_gridPositions (x, y)).mpr ⟨hx, hy⟩, hval⟩

/-- On a board with no empty in-range cell, no player can move. -/
theorem full_no_move (b : Board) (hfull : ∀ pos ∈ gridPositions, b pos.1 pos.2 ≠ none)
    (p : Player) : Board.can_player_move b p = false := by
  rw [Board.can_player_move, List.any_eq_false]
  intro pos hmem
  have hb := (mem_gridPositions pos).mp hmem
  rw [Board.playIsSome, play_occupied b p pos.1 pos.2 (by omega) (by omega) (hfull pos hmem)]
  simp

/-- When the two piece counts sum to 64 every in-range cell is occupied. -/
theorem count_full_occupied (b : Board)
    (hsum : (Board.count_pieces b).1 + (Board.count_pieces b).2 = 64) :
    ∀ pos ∈ gridPositions, b pos.1 pos.2 ≠ none := by
  have hlen : gridPositions.length = 64 := by decide
  have hdisj : ∀ pos : Nat × Nat,
      ¬(decide (b pos.1 pos.2 = some Player.black) = true ∧
        decide (b pos.1 pos.2 = some Player.white) = true) := by
    rintro pos ⟨h1, h2⟩
    simp only [decide_eq_true_eq] at h1 h2
    rw [h1] at h2
    exact Player.noConfusion (Option.some.inj h2)
  have hall := countP_full_all
    (fun pos => decide (b pos.1 pos.2 = some Player.black))
    (fun pos => decide (b pos.1 pos.2 = some Player.white))
    gridPositions hdisj (by rw [hlen]; exact hsum)
  intro pos hmem hnone
  rcases hall pos hmem with h | h <;> simp only [decide_eq_true_eq] at h <;>
    rw [hnone] at h <;> exact Option.noConfusion h

/-- The piece counts stored in a recomputed status are the board counts. -/
theorem eb_black_pieces (b : Board) :
    (GameStatus.evaluate_board b).black_pieces = (Board.count_pieces b).1 := by
  simp only [GameStatus.evaluate_board]
  split <;> rfl

/-- The piece counts stored in a recomputed status are the board counts. -/
theorem eb_white_pieces (b : Board) :
    (GameStatus.evaluate_board b).white_pieces = (Board.count_pieces b).2 := by
  simp only [GameStatus.evaluate_board]
  split <;> rfl

/-- The Black mobility flag of a recomputed status agrees with the probe,
the full-board short-circuit notwithstanding. -/
theorem eb_black_flag (b : Board) :
    (GameStatus.evaluate_board b).black_can_move = Board.can_player_move b Player.black := by
  simp only [GameStatus.evaluate_board]
  split
  · rfl
  · rename_i hfull
    have hsum : (Board.count_pieces b).1 + (Board.count_pieces b).2 = 64 := by
      by_contra hc
      exact hfull hc
    show false = Board.can_player_move b Player.black
    exact (full_no_move b (count_full_occupied b hsum) Player.black).symm

/-- The White mobility flag of a recomputed status agrees with the probe,
the full-board short-circuit notwithstanding. -/
theorem eb_white_flag (b : Board) :
    (GameStatus.evaluate_board b).white_can_move = Board.can_player_move b Player.white := by
  simp only [GameStatus.evaluate_board]
  split
  · rfl
  · rename_i hfull
    have hsum : (Board.count_pieces b).1 + (Board.count_pieces b).2 = 64 := by
      by_contra hc
      exact hfull hc
    show false = Board.can_player_move b Player.white
    exact (full_no_move b (count_full_occupied b hsum) Player.white).symm

/-- The status flag accessor agrees with the direct probe on a recomputed
status. -/
theorem eb_can_flag (b : Board) (p : Player) :
    GameStatus.can_player_move (GameStatus.evaluate_board b) p = Board.can_player_move b p := by
  cases p
  · exact eb_black_flag b
  · exact eb_white_flag b

/-- Game over, as recomputed from a board, is the conjunction of the two
mobility probes. -/
theorem game_over_eq (b : Board) :
    (GameStatus.evaluate_board b).game_over =
      (!Board.can_player_move b Player.black && !Board.can_player_move b Player.white) := by
  rw [GameStatus.game_over, eb_black_flag, eb_white_flag]

/-- Game over, as recomputed from a board, holds iff neither player has a
legal move. -/
theorem game_over_iff (b : Board) :
    (GameStatus.evaluate_board b).game_over = true ↔
      ¬ hasLegalMove b Player.black ∧ ¬ hasLegalMove b Player.white := by
  have hb := can_true_iff b Player.black
  have hw := can_true_iff b Player.white
  rw [game_over_eq]
  cases hcb : Board.can_player_move b Player.black <;>
    cases hcw : Board.can_player_move b Player.white <;>
    rw [hcb] at hb <;> rw [hcw] at hw <;> simp_all

/-- The corner test of the source, read as a proposition. -/
theorem corner_iff (x y : Nat) :
    Evaluator.corner x y = true ↔ (x = 0 ∨ x = 7) ∧ (y = 0 ∨ y = 7) := by
  simp [Evaluator.corner]

/-- The border test of the source, read as a proposition. -/
theorem border_iff (x y : Nat) :
    Evaluator.border x y = true ↔ x = 0 ∨ x = 7 ∨ y = 0 ∨ y = 7 := by
  simp [Evaluator.border, or_assoc]

/-- The three accumulators of the evaluation loop sum to the flat sum of
the per-cell contributions. -/
theorem evalFold_sum (l : List (Nat × Nat × Option Player)) :
    ∀ a c d : Int,
      ((l.foldl Evaluator.evalFold (a, c, d)).1 + (l.foldl Evaluator.evalFold (a, c, d)).2.1 +
        (l.foldl Evaluator.evalFold (a, c, d)).2.2) = a + c + d + (l.map cellScore).sum := by
  induction l with
  | nil =>
    intro a c d
    simp
  | cons cell l ih =>
    intro a c d
    rw [List.foldl_cons, List.map_cons, List.sum_cons]
    rcases cell with ⟨cx, cy, piece⟩
    cases piece with
    | none =>
      simp only [Evaluator.evalFold, cellScore]
      rw [ih]
      ring
    | some pl =>
      by_cases hc : Evaluator.corner cx cy = true
      · simp only [Evaluator.evalFold, cellScore, if_pos hc]
        rw [ih]
        ring
      · by_cases hbd : Evaluator.border cx cy = true
        · simp only [Evaluator.evalFold, cellScore, if_neg hc, if_pos hbd]
          rw [ih]
          ring
        · simp only [Evaluator.evalFold, cellScore, if_neg hc, if_neg hbd]
          rw [ih]
          ring

/-- The per-cell contribution of the source evaluation loop is exactly the
positional weight worded by the spec. -/
theorem cellScore_eq_positionalScore (b : Board) (pos : Nat × Nat) :
    cellScore (pos.1, pos.2, b pos.1 pos.2) = positionalScore b pos := by
  cases hcell : b pos.1 pos.2 with
  | none => simp [cellScore, positionalScore, hcell]
  | some owner =>
    cases hcb : Evaluator.corner pos.1 pos.2
    · cases hbb : Evaluator.border pos.1 pos.2
      · have hcp : ¬((pos.1 = 0 ∨ pos.1 = 7) ∧ (pos.2 = 0 ∨ pos.2 = 7)) := by
          rw [← corner_iff]
          simp [hcb]
        have hbp : ¬(pos.1 = 0 ∨ pos.1 = 7 ∨ pos.2 = 0 ∨ pos.2 = 7) := by
          rw [← border_iff]
          simp [hbb]
        cases owner <;>
          simp [cellScore, positionalScore, hcell, hcb, hbb, hcp, hbp,
            Evaluator.sign_for_player, Evaluator.SCORE_INSIDE]
      · have hcp : ¬((pos.1 = 0 ∨ pos.1 = 7) ∧ (pos.2 = 0 ∨ pos.2 = 7)) := by
          rw [← corner_iff]
          simp [hcb]
        have hbp : pos.1 = 0 ∨ pos.1 = 7 ∨ pos.2 = 0 ∨ pos.2 = 7 := (border_iff _ _).mp hbb
        cases owner <;>
          simp [cellScore, positionalScore, hcell, hcb, hbb, hcp, hbp,
            Evaluator.sign_for_player, Evaluator.SCORE_BORDER]
    · have hcp : (pos.1 = 0 ∨ pos.1 = 7) ∧ (pos.2 = 0 ∨ pos.2 = 7) := (corner_iff _ _).mp hcb
      cases owner <;>
        simp [cellScore, positionalScore, hcell, hcb, hcp,
          Evaluator.sign_for_player, Evaluator.SCORE_CORNER]

/-- Mapping the per-cell contribution over the board iteration is the
spec-side positional sum. -/
theorem iter_map_cellScore (b : Board) :
    (Board.iter b).map cellScore = gridPositions.map (fun pos => positionalScore b pos) := by
  rw [Board.iter, List.map_map]
  have hfun : cellScore ∘ (fun pos : Nat × Nat => (pos.1, pos.2, b pos.1 pos.2)) =
      fun pos => positionalScore b pos := by
    funext pos
    exact cellScore_eq_positionalScore b pos
  rw [hfun]

/-- The winner stored in a recomputed game-over status is decided by the
piece counts: strictly more pieces win, equality is a draw. -/
theorem eb_winner_lt (b : Board) (hover : (GameStatus.evaluate_board b).game_over = true)
    (h : (Board.count_pieces b).1 < (Board.count_pieces b).2) :
    (GameStatus.evaluate_board b).winner = some Player.white := by
  rw [GameStatus.winner, hover, eb_black_pieces, eb_white_pieces]
  have hne : (((Board.count_pieces b).1 == (Board.count_pieces b).2) : Bool) = false := by
    simp
    omega
  rw [hne]
  simp only [Bool.not_true, Bool.false_or]
  rw [if_neg (by simp)]
  rw [if_neg (by omega)]

/-- The winner stored in a recomputed game-over status is decided by the
piece counts: strictly more pieces win, equality is a draw. -/
theorem eb_winner_gt (b : Board) (hover : (GameStatus.evaluate_board b).game_over = true)
    (h : (Board.count_pieces b).2 < (Board.count_pieces b).1) :
    (GameStatus.evaluate_board b).winner = some Player.black := by
  rw [GameStatus.winner, hover, eb_black_pieces, eb_white_pieces]
  have hne : (((Board.count_pieces b).1 == (Board.count_pieces b).2) : Bool) = false := by
    simp
    omega
  rw [hne]
  simp only [Bool.not_true, Bool.false_or]
  rw [if_neg (by simp)]
  rw [if_pos (by omega)]

/-- The winner stored in a recomputed game-over status is decided by the
piece counts: strictly more pieces win, equality is a draw. -/
theorem eb_winner_eq (b : Board) (hover : (GameStatus.evaluate_board b).game_over = true)
    (h : (Board.count_pieces b).1 = (Board.count_pieces b).2) :
    (GameStatus.evaluate_board b).winner = none := by
  rw [GameStatus.winner, hover, eb_black_pieces, eb_white_pieces]
  have he : (((Board.count_pieces b).1 == (Board.count_pieces b).2) : Bool) = true := by
    simp [h]
  rw [he]
  simp

/-- The evaluator of the source is extensionally the evaluator worded by
the spec. -/
theorem evaluate_eq_spec (b : Board) (lp : Player) :
    Evaluator.evaluate b lp = Evaluator.evaluateSpec b lp := by
  by_cases hover : (GameStatus.evaluate_board b).game_over = true
  · have hspec := (game_over_iff b).mp hover
    simp only [Evaluator.evaluate, Evaluator.evaluateSpec]
    rw [if_pos hover, if_pos hspec]
    rcases Nat.lt_trichotomy (Board.count_pieces b).1 (Board.count_pieces b).2 with h | h | h
    · rw [eb_winner_lt b hover h]
      rw [if_neg (by omega), if_pos h]
      simp [Evaluator.sign_for_player]
    · rw [eb_winner_eq b hover h]
      rw [if_neg (by omega), if_neg (by omega)]
      rfl
    · rw [eb_winner_gt b hover h]
      rw [if_pos h]
      simp [Evaluator.sign_for_player]
  · simp only [Evaluator.evaluate, Evaluator.evaluateSpec]
    rw [if_neg hover]
    rw [if_neg (fun hc => hover ((game_over_iff b).mpr hc))]
    have hsum := evalFold_sum (Board.iter b) 0 0 0
    rw [iter_map_cellScore] at hsum
    rw [eb_can_flag]
    by_cases hm : hasLegalMove b (Player.opponent lp)
    · have hcan : Board.can_player_move b (Player.opponent lp) = true := (can_true_iff _ _).mpr hm
      rw [hcan]
      simp only [Bool.not_true]
      rw [if_neg (by simp)]
      rw [if_neg (fun hc => hc hm)]
      rw [hsum]
      omega
    · have hcan : Board.can_player_move b (Player.opponent lp) = false := by
        cases h2 : Board.can_player_move b (Player.opponent lp)
        · rfl
        · exact absurd ((can_true_iff _ _).mp h2) hm
      rw [hcan]
      simp only [Bool.not_false]
      simp only [if_true]
      rw [if_pos hm]
      rw [Evaluator.SCORE_OPPONENT_BLOCKED, hsum]
      omega

/-- Selecting against a present candidate always yields a candidate. -/
theorem bmfp_some_right (p : Player) (best : Option BestMove) (bm : BestMove) :
    (Minimax.best_move_for_player p best (some bm)).isSome = true := by
  cases best with
  | none => rfl
  | some a =>
    simp only [Minimax.best_move_for_player]
    split <;> rfl

/-- A fold that can only gain candidates: if the accumulator already holds
one, or some list element forces one, the fold ends with one. -/
theorem foldl_isSome {α β : Type} (f : Option β → α → Option β) (P : α → Prop)
    (hmono : ∀ acc a, acc.isSome = true → (f acc a).isSome = true)
    (hvalid : ∀ acc a, P a → (f acc a).isSome = true) :
    ∀ (l : List α) (acc : Option β), ((∃ a ∈ l, P a) ∨ acc.isSome = true) →
      (l.foldl f acc).isSome = true := by
  intro l
  induction l with
  | nil =>
    intro acc h
    rcases h with ⟨a, ha, _⟩ | h
    · exact absurd ha (List.not_mem_nil a)
    · simpa using h
  | cons x l ih =>
    intro acc h
    rw [List.foldl_cons]
    rcases h with ⟨a, ha, hPa⟩ | hacc
    · rcases List.mem_cons.mp ha with rfl | ha2
      · exact ih (f acc a) (Or.inr (hvalid acc a hPa))
      · exact ih (f acc x) (Or.inl ⟨a, ha2, hPa⟩)
    · exact ih (f acc x) (Or.inr (hmono acc x hacc))

/-- When the current player has a legal move, the search fold returns a
candidate (this is what guards the `.unwrap()` on the recursive call of
`Minimax::inner_compute_move`). -/
theorem inner_isSome (m : Minimax) (board : Board) (p : Player) (depth fuel : Nat)
    (hcan : Board.can_player_move board p = true) :
    (Minimax.inner_compute_move m board p depth (fuel + 1)).isSome = true := by
  have hex : ∃ pos ∈ gridPositions, Board.playIsSome board p pos.1 pos.2 = true := by
    rw [Board.can_player_move, List.any_eq_true] at hcan
    exact hcan
  simp only [Minimax.inner_compute_move]
  apply foldl_isSome _ (fun pos : Nat × Nat => Board.playIsSome board p pos.1 pos.2 = true)
    ?_ ?_ gridPositions none (Or.inl hex)
  · intro acc pos hacc
    rcases hp : Board.play board p pos.1 pos.2 with e | r
    · simpa only [hp] using hacc
    · cases r with
      | none => simpa only [hp] using hacc
      | some nb =>
        simp only [hp]
        split
        · exact bmfp_some_right p acc _
        · split
          · exact bmfp_some_right p acc _
          · exact bmfp_some_right p acc _
  · intro acc pos hPa
    rcases hp : Board.play board p pos.1 pos.2 with e | r
    · rw [Board.playIsSome, hp] at hPa
      simp at hPa
    · cases r with
      | none =>
        rw [Board.playIsSome, hp] at hPa
        simp at hPa
      | some nb =>
        simp only [hp]
        split
        · exact bmfp_some_right p acc _
        · split
          · exact bmfp_some_right p acc _
          · exact bmfp_some_right p acc _

/-- Game::play never touches the current-player field. -/
theorem game_play_player (g : Game) (p : Player) (x y : Nat) :
    ((Game.play g p x y).2).player = g.player := by
  cases hgp : g.player with
  | none => simp only [Game.play, hgp]
  | some q =>
    simp only [Game.play, hgp]
    split
    · simp [hgp]
    · rcases hp : Board.play g.board p x y with e | r
      · simp [hp, hgp]
      · cases r <;> simp [hp, hgp]

/-- Along any sequence of Game::play calls the current-player field keeps
its value. -/
theorem game_fold_player (moves : List (Player × Nat × Nat)) :
    ∀ g : Game,
      (moves.foldl (fun gg mv => (Game.play gg mv.1 mv.2.1 mv.2.2).2) g).player = g.player := by
  induction moves with
  | nil => intro g; rfl
  | cons mv moves ih =>
    intro g
    rw [List.foldl_cons, ih]
    exact game_play_player g mv.1 mv.2.1 mv.2.2

/-! Claim theorems.  Each theorem settles one claim of the specification
audit; witnesses instantiate the hypothesised theorems at concrete
inputs. -/

/-- C1.  Capture correctness (concrete scenario): from `ringBoard` (Black
on every edge cell of the 5x5 sub-square, White on its interior except the
empty center), Black playing (2,2) returns `Ok(Some(b'))` where b' holds
Black on every cell with x < 5 and y < 5 and every other cell is empty. -/
theorem c1_capture_scenario :
    ∀ x y : Fin 8,
      resultCell (Board.play ringBoard Player.black 2 2) x.val y.val =
        some (if x.val < 5 ∧ y.val < 5 then some Player.black else none) := by
  decide

/-- C2 (counterexample).  On two candidates of equal signed evaluation,
`Minimax::best_move_for_player` does NOT keep the first-encountered
candidate: it returns the second one.  Both candidates below evaluate to 5
for Black, yet the second replaces the first. -/
theorem c2_counterexample :
    Minimax.best_move_for_player Player.black
        (some { x := 0, y := 0, evaluation := 5 }) (some { x := 1, y := 1, evaluation := 5 }) =
      some { x := 1, y := 1, evaluation := 5 } ∧
    ({ x := 1, y := 1, evaluation := 5 } : BestMove) ≠ { x := 0, y := 0, evaluation := 5 } := by
  decide

/-- C2 (amended).  At every node the candidate whose signed evaluation
(sign(currentPlayer) * evaluation, Black positive, White negative) is
strictly greater wins, but on EQUAL score the newly encountered candidate
replaces the held one (the comparison keeps the held candidate only when
strictly greater), so ties favor the LATEST coordinate in the fixed board
enumeration order: a depth-1 search for Black from the standard start,
whose four legal openings all evaluate to 3, returns (5,4), the last of
the four in grid order. -/
theorem c2_amended_tie_keeps_latest :
    (∀ (p : Player) (mb : Option BestMove), Minimax.best_move_for_player p none mb = mb) ∧
    (∀ (p : Player) (a : BestMove), Minimax.best_move_for_player p (some a) none = some a) ∧
    (∀ (p : Player) (a bm : BestMove),
      (Evaluator.sign_for_player p a.evaluation > Evaluator.sign_for_player p bm.evaluation →
        Minimax.best_move_for_player p (some a) (some bm) = some a) ∧
      (Evaluator.sign_for_player p a.evaluation ≤ Evaluator.sign_for_player p bm.evaluation →
        Minimax.best_move_for_player p (some a) (some bm) = some bm)) ∧
    Minimax.compute_move { depth := 1 } Board.new_start Player.black = some (5, 4) := by
  refine ⟨?_, ?_, ?_, ?_⟩
  · intro p mb
    cases mb <;> rfl
  · intro p a
    rfl
  · intro p a bm
    constructor
    · intro h
      simp only [Minimax.best_move_for_player]
      rw [if_pos h]
    · intro h
      simp only [Minimax.best_move_for_player]
      rw [if_neg (by omega)]
  · decide

/-- C2 (witness for the amended theorem): a strictly better held candidate
is kept, a tied or better new candidate replaces it. -/
theorem c2_amended_witness :
    Minimax.best_move_for_player Player.black
        (some { x := 0, y := 0, evaluation := 3 }) (some { x := 1, y := 1, evaluation := 2 }) =
      some { x := 0, y := 0, evaluation := 3 } ∧
    Minimax.best_move_for_player Player.black
        (some { x := 0, y := 0, evaluation := 2 }) (some { x := 1, y := 1, evaluation := 3 }) =
      some { x := 1, y := 1, evaluation := 3 } :=
  ⟨(c2_amended_tie_keeps_latest.2.2.1 Player.black _ _).1 (by decide),
   (c2_amended_tie_keeps_latest.2.2.1 Player.black _ _).2 (by decide)⟩

/-- C3.  Frame property of Game::play: the current-turn field is assigned
`Some(Black)` by Game::new and never reassigned by play; after any
sequence of play calls, successful or not, the player field still holds
`Some(Black)` (only the board and status fields are ever replaced). -/
theorem c3_turn_never_advances :
    Game.new.player = some Player.black ∧
    (∀ (g : Game) (p : Player) (x y : Nat), ((Game.play g p x y).2).player = g.player) ∧
    (∀ moves : List (Player × Nat × Nat),
      ((moves.foldl (fun g mv => (Game.play g mv.1 mv.2.1 mv.2.2).2) Game.new)).player =
        some Player.black) :=
  ⟨rfl, game_play_player, fun moves => by rw [game_fold_player]; rfl⟩

/-- C4 (code evaluation).  At a game-over position reached with the
player field still `Some(Black)` (the only value it ever takes), a move
attempt by Black is rejected with the InvalidMove error, not with the
GameOver error: the GameOver branch of Game::play tests the player field
against None, which is never assigned. -/
theorem c4_game_over_error_unreachable :
    (GameStatus.evaluate_board deadBoard).game_over = true ∧
    deadGame.player = some Player.black ∧
    (Game.play deadGame Player.black 0 1).1 = Except.error "The move is invalid." ∧
    (Game.play deadGame Player.black 0 1).1 ≠
      Except.error "None of the players can move, the game is over." := by
  refine ⟨by decide, rfl, by decide, by decide⟩

/-- C5.  Fixed-depth search determinism: on `minimaxTestBoard` (White at
(2,2),(2,3), Black at (3,2),(3,3),(4,3)), Minimax with depth 1 computing a
move for White returns exactly (5,3). -/
theorem c5_minimax_depth1 :
    Minimax.compute_move { depth := 1 } minimaxTestBoard Player.white = some (5, 3) := by
  decide

/-- C6.  Evaluator contract: `Evaluator.evaluate` agrees everywhere with
the spec-worded `Evaluator.evaluateSpec` (game-over boards score the
maximum representable signed value for the winner or 0 on a draw; other
boards score the positional sum of weights 8/4/1 signed by owner plus a
bonus of 4 signed for the last player when its opponent cannot move), and
the standard start board evaluates to 0 for Black. -/
theorem c6_evaluator_contract :
    (∀ (b : Board) (lp : Player), Evaluator.evaluate b lp = Evaluator.evaluateSpec b lp) ∧
    Evaluator.evaluate Board.new_start Player.black = 0 :=
  ⟨evaluate_eq_spec, by decide⟩

/-- C7.  GameStatus::game_over is true iff neither player has any legal
move, and in particular it is true for every board whose 64 cells are all
occupied (where the mobility probing is short-circuited). -/
theorem c7_game_over_iff :
    ∀ b : Board,
      ((GameStatus.evaluate_board b).game_over = true ↔
        ¬ hasLegalMove b Player.black ∧ ¬ hasLegalMove b Player.white) ∧
      ((∀ x y : Fin 8, b x.val y.val ≠ none) →
        (GameStatus.evaluate_board b).game_over = true) := by
  intro b
  refine ⟨game_over_iff b, ?_⟩
  intro hfull
  rw [game_over_eq]
  have hocc : ∀ pos ∈ gridPositions, b pos.1 pos.2 ≠ none := by
    intro pos hmem
    have hb := (mem_gridPositions pos).mp hmem
    exact hfull ⟨pos.1, hb.1⟩ ⟨pos.2, hb.2⟩
  rw [full_no_move b hocc Player.black, full_no_move b hocc Player.white]
  rfl

/-- C7 (witness): the all-Black board is game over. -/
theorem c7_witness : (GameStatus.evaluate_board allBlackBoard).game_over = true :=
  (c7_game_over_iff allBlackBoard).2 (by decide)

/-- C8.  Purity and value semantics of Board::play: two calls with
identical arguments give identical results, and the receiving board is
left observable: after a successful play its target cell still reads empty
on the original board while the returned board holds the mover there. -/
theorem c8_play_pure :
    ∀ (b : Board) (p : Player) (x y : Nat),
      Board.play b p x y = Board.play b p x y ∧
      (Board.playIsSome b p x y = true →
        b x y = none ∧ resultCell (Board.play b p x y) x y = some (some p)) :=
  fun b p x y => ⟨rfl, fun h => playIsSome_target b p x y h⟩

/-- C8 (witness): Black playing (4,5) from the standard start succeeds;
the original board still has (4,5) empty, the new board has it Black. -/
theorem c8_witness :
    Board.new_start 4 5 = none ∧
    resultCell (Board.play Board.new_start Player.black 4 5) 4 5 = some (some Player.black) :=
  (c8_play_pure Board.new_start Player.black 4 5).2 (by decide)

/-- C9.  For every board, player and in-range occupied target, Board::play
returns `Ok(None)`: no error, and no board (hence no flipped cell) is
produced. -/
theorem c9_occupied_returns_ok_none :
    ∀ (b : Board) (p : Player) (x y : Nat), x ≤ 7 → y ≤ 7 → b x y ≠ none →
      Board.play b p x y = Except.ok none :=
  fun b p x y hx hy hocc => play_occupied b p x y hx hy hocc

/-- C9 (witness): playing on the occupied (3,3) of the standard start
returns `Ok(None)`. -/
theorem c9_witness : Board.play Board.new_start Player.black 3 3 = Except.ok none :=
  c9_occupied_returns_ok_none Board.new_start Player.black 3 3 (by decide) (by decide)
    (by decide)

/-- C10.  No panic under valid input: for in-range coordinates,
Board::get_piece, Board::set_piece and Board::play always answer `Ok`
(so the `.unwrap()` in GameStatus::can_player_move and the `.expect(..)`
in Minimax::inner_compute_move, which only probe grid coordinates, cannot
panic), and whenever the current player can move the search fold returns
`Some`, so the `.unwrap()` on the guarded recursive inner_compute_move
result cannot panic either. -/
theorem c10_no_panic :
    (∀ (b : Board) (p : Player) (c : Option Player) (x y : Nat), x ≤ 7 → y ≤ 7 →
      (∃ v, Board.get_piece b x y = Except.ok v) ∧
      (∃ nb, Board.set_piece b x y c = Except.ok nb) ∧
      (∃ r, Board.play b p x y = Except.ok r)) ∧
    (∀ (m : Minimax) (board : Board) (p : Player) (depth fuel : Nat),
      Board.can_player_move board p = true →
      (Minimax.inner_compute_move m board p depth (fuel + 1)).isSome = true) := by
  constructor
  · intro b p c x y hx hy
    have h7 : ¬(x > 7 ∨ y > 7) := by omega
    refine ⟨⟨b x y, ?_⟩, ⟨fun i j => if i = x ∧ j = y then c else b i j, ?_⟩,
      play_isOk b p x y hx hy⟩
    · simp only [Board.get_piece, Board.check_coordinates, if_neg h7]
    · simp only [Board.set_piece, Board.check_coordinates, if_neg h7]
  · exact fun m board p depth fuel h => inner_isSome m board p depth fuel h

/-- C10 (witness): accessors answer `Ok` at (0,0) of the empty board, and
the depth-1 search fold from the standard start returns a candidate for
Black, who can move there. -/
theorem c10_witness :
    (∃ v, Board.get_piece Board.new 0 0 = Except.ok v) ∧
    (∃ nb, Board.set_piece Board.new 0 0 (some Player.black) = Except.ok nb) ∧
    (∃ r, Board.play Board.new Player.black 0 0 = Except.ok r) ∧
    (Minimax.inner_compute_move { depth := 1 } Board.new_start Player.black 1 1).isSome =
      true := by
  have h := c10_no_panic.1 Board.new Player.black (some Player.black) 0 0 (by decide) (by decide)
  exact ⟨h.1, h.2.1, h.2.2,
    c10_no_panic.2 { depth := 1 } Board.new_start Player.black 1 0 (by decide)⟩

end Rusthello
